import Mathlib

/-!
Verification of the FaceDetection real-time recognition pipeline
(`src/FaceDetection/04_recognition_realtime.py` and
`src/FaceDetection/02_detect_and_align_faces.py`).

Shallow embedding conventions:
* numpy float vectors are modelled as `Fin d → ℝ`;
* the embedding database (aligned `embeddings` / `labels` sequences) is a
  `List (String × (Fin d → ℝ))`;
* `np.argmin` over a list of distances is `argminAux`, returning the first
  index attaining the minimum together with the minimum itself, and `none`
  on the empty list (where `np.argmin` raises `ValueError`);
* the per-frame loop body of `FaceRecognitionSystem.run` is `processFrame`
  acting on a `TrackerState`; the result list produced by a detection
  cycle is an input (the detector and embedder are external black boxes);
  a cycle that raised an exception delivers the same `[]` update as a
  cycle with no detections, since the caught exception skips the
  persistence update;
* the per-detection control flow inside one cycle (lines 269-296 of
  `04_recognition_realtime.py`) is `processDetections`, with `Except`
  modelling a raised Python exception escaping the `for` loop.
-/

namespace FaceRec

noncomputable section

/-- `config.py`: FaceNet input size. -/
def IMAGE_SIZE : Nat := 160

/-- `config.py`: accept/reject distance threshold. -/
def DISTANCE_THRESHOLD : ℝ := 0.6

/-- `04_recognition_realtime.py` line 237. -/
def process_every_n_frames : Nat := 15

/-- `04_recognition_realtime.py` line 241. -/
def PERSISTENCE_LIMIT : Nat := 20

/-- `np.dot` for two `d`-dimensional real vectors. -/
def dot {d : Nat} (a b : Fin d → ℝ) : ℝ := ∑ i, a i * b i

/-- `np.linalg.norm` of a vector: square root of the sum of squares. -/
def vnorm {d : Nat} (a : Fin d → ℝ) : ℝ := Real.sqrt (∑ i, (a i) ^ 2)

/-- `FaceRecognitionSystem.euclidean_distance`: `np.linalg.norm(e1 - e2)`. -/
def euclidean_distance {d : Nat} (a b : Fin d → ℝ) : ℝ :=
  Real.sqrt (∑ i, (a i - b i) ^ 2)

/-- `FaceRecognitionSystem.cosine_distance`: `1 - np.dot(e1, e2)`. -/
def cosine_distance {d : Nat} (a b : Fin d → ℝ) : ℝ := 1 - dot a b

/-- `np.argmin` together with the minimum value: returns the first index
attaining the minimum of the list, paired with that minimum; `none` on the
empty list (where `np.argmin` raises `ValueError`). -/
def argminAux {α : Type} [LinearOrder α] : List α → Option (Nat × α)
  | [] => none
  | d :: rest =>
    match argminAux rest with
    | none => some (0, d)
    | some (j, m) => if m < d then some (j + 1, m) else some (0, d)

/-- The list of distances computed by the scan loop of
`FaceRecognitionSystem.recognize_face` (lines 139-148). -/
def distancesTo {d : Nat} (db : List (String × (Fin d → ℝ))) (q : Fin d → ℝ)
    (useCosine : Bool) : List ℝ :=
  db.map (fun r => if useCosine then cosine_distance q r.2 else euclidean_distance q r.2)

/-- `FaceRecognitionSystem.recognize_face` (lines 127-159).  The result is
`none` when `np.argmin` raises on an empty database; otherwise
`some (identity, min_distance)` where `identity` is `some label` iff
`min_distance < threshold` (Unknown is `none`).  The threshold is the global
`DISTANCE_THRESHOLD` in the source; it is kept as a parameter. -/
def recognize_face {d : Nat} (db : List (String × (Fin d → ℝ))) (q : Fin d → ℝ)
    (useCosine : Bool) (threshold : ℝ) : Option (Option String × ℝ) :=
  match argminAux (distancesTo db q useCosine) with
  | none => none
  | some (i, m) =>
    if m < threshold then some ((db[i]?).map Prod.fst, m) else some (none, m)

/-- Reliability percentage computed for display in
`FaceRecognitionSystem.draw_face_box` (lines 171-173): `0.0` when no
distance is reported, else `max(0.0, (0.8 - distance) / 0.8 * 100)`. -/
def reliability (distance : Option ℝ) : ℝ :=
  match distance with
  | none => 0
  | some dist => max 0 ((0.8 - dist) / 0.8 * 100)

/-- Modelled from the spec: `reliability = clamp((R - distance) / R * 100, 0, 100)`
with `R = 0.8`.  Stated for comparison with the source `reliability`. -/
def reliabilitySpec (dist : ℝ) : ℝ := max 0 (min ((0.8 - dist) / 0.8 * 100) 100)

/-- State of the `run` loop of `FaceRecognitionSystem`
(`04_recognition_realtime.py` lines 236-245), plus an instrumentation
counter `pipeline_runs` recording how many frames entered the expensive
detection branch (line 259).  `A` abstracts the per-face payload stored in
`active_faces` (a dict of detection, name, distance in the source). -/
structure TrackerState (A : Type) where
  active_faces : List A
  frames_without_detection : Nat
  frame_count : Nat
  pipeline_runs : Nat

/-- One iteration of the `while` loop (lines 249-331) as far as the tracker
state is concerned.  `r` is the `current_detected_faces` list produced when
the detection cycle runs on this frame; on non-cycle frames it is ignored.
A cycle that raised an exception behaves exactly like `r = []`: the caught
exception skips the persistence update on lines 299-301. -/
def processFrame {A : Type} (s : TrackerState A) (r : List A) : TrackerState A :=
  let fc := s.frame_count + 1
  let fwd := if fc % process_every_n_frames = 0 ∧ 0 < r.length then 0
             else s.frames_without_detection + 1
  let act := if fc % process_every_n_frames = 0 ∧ 0 < r.length then r
             else s.active_faces
  { active_faces := if PERSISTENCE_LIMIT < fwd then [] else act
    frames_without_detection := fwd
    frame_count := fc
    pipeline_runs :=
      s.pipeline_runs + (if fc % process_every_n_frames = 0 then 1 else 0) }

/-- Iterating the loop body over `n` frames; `dets j` is the cycle result
the detector pipeline would deliver on the `j`-th processed frame. -/
def runFrames {A : Type} (dets : Nat → List A) (s : TrackerState A) : Nat → TrackerState A
  | 0 => s
  | n + 1 => processFrame (runFrames dets s n) (dets n)

/-- The loop state right before the first frame (lines 236-245). -/
def initialState {A : Type} : TrackerState A := ⟨[], 0, 0, 0⟩

/-- Outcome of handling one detection inside a cycle
(`04_recognition_realtime.py` lines 269-296): skipped for low confidence
(line 270), skipped for an empty crop (line 285), a raised exception while
normalizing/embedding/matching, or a successfully matched result. -/
inductive DetStep (A : Type) where
  | lowConfidence : DetStep A
  | emptyCrop : DetStep A
  | failure : DetStep A
  | success : A → DetStep A
deriving DecidableEq

/-- The `for detection in detections` loop (lines 269-296): accumulates the
successful results in order; a raised exception escapes the loop (the
`try` block has no per-detection handler), aborting the remaining
detections. -/
def processDetections {A : Type} : List (DetStep A) → Except Unit (List A)
  | [] => Except.ok []
  | DetStep.lowConfidence :: rest => processDetections rest
  | DetStep.emptyCrop :: rest => processDetections rest
  | DetStep.failure :: _ => Except.error ()
  | DetStep.success a :: rest => (processDetections rest).map (fun l => a :: l)

/-- The `current_detected_faces` list that reaches the persistence logic
(line 299).  When the cycle raises, the `except` handler (line 305) catches
it after the update was skipped, so the tracker sees the same thing as an
empty cycle. -/
def cycleResults {A : Type} (steps : List (DetStep A)) : List A :=
  match processDetections steps with
  | Except.ok l => l
  | Except.error _ => []

/-- `align_face` of `02_detect_and_align_faces.py` (lines 19-57), tracking
shapes only (pixel content and `cv2.resize` are external).  The image has
`H` rows and `W` columns; the MTCNN box is `(x, y, w, h)` with a possibly
negative origin.  Returns `none` when the clamped crop `image[y1:y2, x1:x2]`
has zero size, else the shape of the resized face,
`(output_size, output_size)`.  `int(w * 0.15)` is `15 * w / 100` in exact
arithmetic (float truncation agrees for all realistic widths). -/
def align_face (H W : Nat) (x y : Int) (w h : Nat) (output_size : Nat) :
    Option (Nat × Nat) :=
  let xa := x.natAbs
  let ya := y.natAbs
  let xm := 15 * w / 100
  let ym := 15 * h / 100
  let x1 := xa - xm
  let y1 := ya - ym
  let x2 := min W (xa + w + xm)
  let y2 := min H (ya + h + ym)
  if (y2 - y1) * (x2 - x1) = 0 then none else some (output_size, output_size)

/-- The detection box `[x, x+w) × [y, y+h)` shares no pixel with the image
`[0, W) × [0, H)`. -/
def boxEntirelyOutside (H W : Nat) (x y : Int) (w h : Nat) : Prop :=
  (W : Int) ≤ x ∨ x + w ≤ 0 ∨ (H : Int) ≤ y ∨ y + h ≤ 0

instance (H W : Nat) (x y : Int) (w h : Nat) :
    Decidable (boxEntirelyOutside H W x y w h) := by
  unfold boxEntirelyOutside; infer_instance

end

/-! ### Helper lemmas about `argminAux` -/

theorem argminAux_eq_none_iff {α : Type} [LinearOrder α] (l : List α) :
    argminAux l = none ↔ l = [] := by
  cases l with
  | nil => simp [argminAux]
  | cons d rest =>
    simp only [argminAux]
    cases h : argminAux rest with
    | none => simp
    | some jm => rcases jm with ⟨j, m⟩; by_cases hlt : m < d <;> simp [hlt]

theorem argminAux_spec {α : Type} [LinearOrder α] :
    ∀ (l : List α) (i : Nat) (m : α), argminAux l = some (i, m) →
      l[i]? = some m ∧ (∀ x ∈ l, m ≤ x) ∧ ∀ j x, j < i → l[j]? = some x → m < x := by
  intro l
  induction l with
  | nil => intro i m h; exact absurd h (by simp [argminAux])
  | cons d rest ih =>
    intro i m h
    simp only [argminAux] at h
    cases hrest : argminAux rest with
    | none =>
      rw [hrest] at h
      dsimp only at h
      simp only [Option.some.injEq, Prod.mk.injEq] at h
      obtain ⟨hi, hm⟩ := h
      subst hi; subst hm
      have hnil : rest = [] := (argminAux_eq_none_iff rest).mp hrest
      subst hnil
      refine ⟨List.getElem?_cons_zero, ?_, ?_⟩
      · intro x hx
        have hx' : x = d := by simpa using hx
        subst hx'; exact le_refl x
      · intro j x hj; omega
    | some jm =>
      rcases jm with ⟨j', m'⟩
      rw [hrest] at h
      dsimp only at h
      obtain ⟨hget, hmin, hfirst⟩ := ih j' m' hrest
      by_cases hlt : m' < d
      · rw [if_pos hlt] at h
        simp only [Option.some.injEq, Prod.mk.injEq] at h
        obtain ⟨hi, hm⟩ := h
        subst hi; subst hm
        refine ⟨by simpa using hget, ?_, ?_⟩
        · intro x hx
          rcases List.mem_cons.mp hx with hx | hx
          · subst hx; exact le_of_lt hlt
          · exact hmin x hx
        · intro j x hj hx
          cases j with
          | zero =>
            have hx' : d = x := by simpa using hx
            subst hx'; exact hlt
          | succ k =>
            simp only [List.getElem?_cons_succ] at hx
            exact hfirst k x (by omega) hx
      · rw [if_neg hlt] at h
        simp only [Option.some.injEq, Prod.mk.injEq] at h
        obtain ⟨hi, hm⟩ := h
        subst hi; subst hm
        push_neg at hlt
        refine ⟨List.getElem?_cons_zero, ?_, ?_⟩
        · intro x hx
          rcases List.mem_cons.mp hx with hx | hx
          · subst hx; exact le_refl x
          · exact le_trans hlt (hmin x hx)
        · intro j x hj; omega

theorem argminAux_mem {α : Type} [LinearOrder α] (l : List α) (i : Nat) (m : α)
    (h : argminAux l = some (i, m)) : m ∈ l := by
  have hget := (argminAux_spec l i m h).1
  exact List.getElem?_mem hget

/-- `argminAux` commutes with mapping a function that preserves strict
comparison on the list's elements: the chosen index is unchanged and the
minimum is mapped. -/
theorem argminAux_map {α β : Type} [LinearOrder α] [LinearOrder β] (g : α → β) :
    ∀ l : List α, (∀ x ∈ l, ∀ y ∈ l, (g x < g y ↔ x < y)) →
      argminAux (l.map g) = (argminAux l).map (fun p => (p.1, g p.2)) := by
  intro l
  induction l with
  | nil => intro _; simp [argminAux]
  | cons d rest ih =>
    intro hg
    have hg' : ∀ x ∈ rest, ∀ y ∈ rest, (g x < g y ↔ x < y) := by
      intro x hx y hy
      exact hg x (List.mem_cons_of_mem d hx) y (List.mem_cons_of_mem d hy)
    simp only [List.map_cons, argminAux, ih hg']
    cases hrest : argminAux rest with
    | none => simp
    | some jm =>
      rcases jm with ⟨j, m⟩
      have hm : m ∈ rest := argminAux_mem rest j m hrest
      have hiff : g m < g d ↔ m < d :=
        hg m (List.mem_cons_of_mem d hm) d (List.mem_cons_self d rest)
      dsimp only [Option.map]
      by_cases hlt : m < d
      · rw [if_pos hlt, if_pos (hiff.mpr hlt)]
      · rw [if_neg hlt, if_neg (fun hc => hlt (hiff.mp hc))]

/-! ### Vector facts -/

theorem vnorm_eq_one_iff {d : Nat} (a : Fin d → ℝ) :
    vnorm a = 1 ↔ ∑ i, (a i) ^ 2 = 1 := by
  unfold vnorm; exact Real.sqrt_eq_one

theorem dot_sq_le_one {d : Nat} (a b : Fin d → ℝ) (ha : vnorm a = 1)
    (hb : vnorm b = 1) : (dot a b) ^ 2 ≤ 1 := by
  have hcs := Finset.sum_mul_sq_le_sq_mul_sq Finset.univ a b
  rw [(vnorm_eq_one_iff a).mp ha, (vnorm_eq_one_iff b).mp hb] at hcs
  simpa [dot] using hcs

theorem abs_dot_le_one {d : Nat} (a b : Fin d → ℝ) (ha : vnorm a = 1)
    (hb : vnorm b = 1) : |dot a b| ≤ 1 :=
  (sq_le_one_iff_abs_le_one (dot a b)).mp (dot_sq_le_one a b ha hb)

theorem cosine_distance_nonneg {d : Nat} (a b : Fin d → ℝ) (ha : vnorm a = 1)
    (hb : vnorm b = 1) : 0 ≤ cosine_distance a b := by
  have h := (abs_le.mp (abs_dot_le_one a b ha hb)).2
  unfold cosine_distance; linarith

theorem cosine_distance_le_two {d : Nat} (a b : Fin d → ℝ) (ha : vnorm a = 1)
    (hb : vnorm b = 1) : cosine_distance a b ≤ 2 := by
  have h := (abs_le.mp (abs_dot_le_one a b ha hb)).1
  unfold cosine_distance; linarith

theorem cosine_distance_self {d : Nat} (a : Fin d → ℝ) (ha : vnorm a = 1) :
    cosine_distance a a = 0 := by
  have h1 : dot a a = 1 := by
    have := (vnorm_eq_one_iff a).mp ha
    simpa [dot, sq] using this
  unfold cosine_distance; rw [h1]; ring

theorem euclidean_distance_self {d : Nat} (a : Fin d → ℝ) :
    euclidean_distance a a = 0 := by
  unfold euclidean_distance
  simp

theorem euclidean_distance_nonneg {d : Nat} (a b : Fin d → ℝ) :
    0 ≤ euclidean_distance a b := Real.sqrt_nonneg _

theorem sum_sub_sq_eq_two_cosine {d : Nat} (a b : Fin d → ℝ) (ha : vnorm a = 1)
    (hb : vnorm b = 1) : ∑ i, (a i - b i) ^ 2 = 2 * cosine_distance a b := by
  have hstep : ∀ i : Fin d, (a i - b i) ^ 2 = a i ^ 2 + b i ^ 2 - 2 * (a i * b i) :=
    fun i => by ring
  calc ∑ i, (a i - b i) ^ 2
      = ∑ i, (a i ^ 2 + b i ^ 2 - 2 * (a i * b i)) :=
        Finset.sum_congr rfl (fun i _ => hstep i)
    _ = ((∑ i, a i ^ 2) + ∑ i, b i ^ 2) - 2 * ∑ i, a i * b i := by
        rw [Finset.sum_sub_distrib, Finset.sum_add_distrib, Finset.mul_sum]
    _ = 2 * cosine_distance a b := by
        rw [(vnorm_eq_one_iff a).mp ha, (vnorm_eq_one_iff b).mp hb]
        unfold cosine_distance dot; ring

theorem euclidean_eq_sqrt_two_cosine {d : Nat} (a b : Fin d → ℝ) (ha : vnorm a = 1)
    (hb : vnorm b = 1) :
    euclidean_distance a b = Real.sqrt (2 * cosine_distance a b) := by
  unfold euclidean_distance
  rw [sum_sub_sq_eq_two_cosine a b ha hb]

theorem vnorm_const_one : vnorm (fun _ : Fin 1 => (1 : ℝ)) = 1 := by
  rw [vnorm_eq_one_iff]
  simp

/-! ### Frame-loop facts -/

theorem runFrames_frame_count {A : Type} (dets : Nat → List A) (s : TrackerState A) :
    ∀ n, (runFrames dets s n).frame_count = s.frame_count + n := by
  intro n
  induction n with
  | zero => rfl
  | succ k ih => simp only [runFrames, processFrame, ih]; omega

theorem processFrame_update {A : Type} (s : TrackerState A) (r : List A)
    (hcyc : (s.frame_count + 1) % process_every_n_frames = 0)
    (hr : 0 < r.length) :
    (processFrame s r).active_faces = r ∧
      (processFrame s r).frames_without_detection = 0 ∧
      (processFrame s r).frame_count = s.frame_count + 1 := by
  unfold processFrame
  simp [hcyc, hr, PERSISTENCE_LIMIT]

theorem processFrame_no_update {A : Type} (s : TrackerState A) (r : List A)
    (h : ¬ ((s.frame_count + 1) % process_every_n_frames = 0 ∧ 0 < r.length))
    (hlim : s.frames_without_detection + 1 ≤ PERSISTENCE_LIMIT) :
    (processFrame s r).active_faces = s.active_faces ∧
      (processFrame s r).frames_without_detection = s.frames_without_detection + 1 ∧
      (processFrame s r).frame_count = s.frame_count + 1 := by
  have h2 : ¬ PERSISTENCE_LIMIT < s.frames_without_detection + 1 := by omega
  unfold processFrame
  simp [h, h2]

theorem processFrame_stale {A : Type} (s : TrackerState A) (r : List A)
    (h : ¬ ((s.frame_count + 1) % process_every_n_frames = 0 ∧ 0 < r.length))
    (hlim : PERSISTENCE_LIMIT < s.frames_without_detection + 1) :
    (processFrame s r).active_faces = [] := by
  unfold processFrame
  simp [h, hlim]

theorem processFrame_pipeline_runs {A : Type} (s : TrackerState A) (r : List A) :
    (processFrame s r).pipeline_runs =
      s.pipeline_runs +
        (if (s.frame_count + 1) % process_every_n_frames = 0 then 1 else 0) := rfl

/-! ### Claim theorems -/

/-- C5: for all unit-normalized vectors `a` and `b`,
`cosine_distance a b = 1 - dot a b`, and this value lies in `[0, 2]`. -/
theorem cosine_distance_form_and_range {d : Nat} (a b : Fin d → ℝ)
    (ha : vnorm a = 1) (hb : vnorm b = 1) :
    cosine_distance a b = 1 - dot a b ∧
      0 ≤ cosine_distance a b ∧ cosine_distance a b ≤ 2 :=
  ⟨rfl, cosine_distance_nonneg a b ha hb, cosine_distance_le_two a b ha hb⟩

/-- Witness for C5 at the concrete unit vector `(1) : Fin 1 → ℝ`. -/
theorem cosine_distance_form_and_range_witness :
    vnorm (fun _ : Fin 1 => (1 : ℝ)) = 1 ∧
      (cosine_distance (fun _ : Fin 1 => (1 : ℝ)) (fun _ => 1) =
          1 - dot (fun _ : Fin 1 => (1 : ℝ)) (fun _ => 1) ∧
        0 ≤ cosine_distance (fun _ : Fin 1 => (1 : ℝ)) (fun _ => 1) ∧
        cosine_distance (fun _ : Fin 1 => (1 : ℝ)) (fun _ => 1) ≤ 2) :=
  ⟨vnorm_const_one,
    cosine_distance_form_and_range (fun _ => 1) (fun _ => 1) vnorm_const_one vnorm_const_one⟩

/-- C7: for every reported match distance `dist ≥ 0`, the reliability shown by
`draw_face_box` equals `clamp((0.8 - dist) / 0.8 * 100, 0, 100)` and lies in
`[0, 100]`. -/
theorem reliability_clamped (dist : ℝ) (hd : 0 ≤ dist) :
    reliability (some dist) = reliabilitySpec dist ∧
      0 ≤ reliability (some dist) ∧ reliability (some dist) ≤ 100 := by
  have hred : reliability (some dist) = max 0 ((0.8 - dist) / 0.8 * 100) := rfl
  have heq : (0.8 - dist) / 0.8 * 100 = 100 - 125 * dist := by ring
  rw [hred]
  unfold reliabilitySpec
  rw [heq]
  refine ⟨?_, le_max_left _ _, ?_⟩
  · rw [min_eq_left (by linarith)]
  · exact max_le (by norm_num) (by linarith)

/-- Witness for C7 at distance 1. -/
theorem reliability_clamped_witness :
    (0 : ℝ) ≤ 1 ∧ (reliability (some 1) = reliabilitySpec 1 ∧
      0 ≤ reliability (some 1) ∧ reliability (some 1) ≤ 100) :=
  ⟨by norm_num, reliability_clamped 1 (by norm_num)⟩

/-- C9: `recognize_face` fails (the `np.argmin` error branch, modelled as
`none`) exactly on the empty store; on every non-empty store it returns a
result. -/
theorem recognize_face_none_iff {d : Nat} (db : List (String × (Fin d → ℝ)))
    (q : Fin d → ℝ) (useCosine : Bool) (threshold : ℝ) :
    recognize_face db q useCosine threshold = none ↔ db = [] := by
  unfold recognize_face
  cases h : argminAux (distancesTo db q useCosine) with
  | none =>
    have hdl : distancesTo db q useCosine = [] := (argminAux_eq_none_iff _).mp h
    have hdb : db = [] := List.map_eq_nil_iff.mp hdl
    simp [hdb]
  | some im =>
    rcases im with ⟨i, m⟩
    have hne : db ≠ [] := by
      intro hnil
      rw [hnil] at h
      simp [distancesTo, argminAux] at h
    dsimp only
    constructor
    · intro hfalse; split_ifs at hfalse
    · intro hnil; exact absurd hnil hne

/-- C3 counterexample: in a cycle whose first detection raises and whose
second would succeed with payload 2, the surviving detection is NOT
processed — the cycle delivers no results at all, refuting the claim that a
per-detection failure leaves the remaining detections processed. -/
theorem cycle_failure_not_isolated_cex :
    DetStep.success 2 ∈ [DetStep.failure, DetStep.success (2 : Nat)] ∧
      processDetections [DetStep.failure, DetStep.success (2 : Nat)] =
        Except.error () ∧
      cycleResults [DetStep.failure, DetStep.success (2 : Nat)] = [] := by
  refine ⟨?_, rfl, rfl⟩
  simp

/-- C3 (amended): a raised exception while processing one detection aborts
the remaining detections of that cycle — the exception escapes the `for`
loop to the cycle-level handler and the whole cycle's results are discarded
(the frame loop itself survives, seeing an empty update); only the
non-exceptional skips (confidence below threshold, empty crop) leave the
remaining detections processed. -/
theorem cycle_failure_aborts {A : Type} (pre rest : List (DetStep A)) :
    processDetections (pre ++ DetStep.failure :: rest) = Except.error () ∧
      cycleResults (pre ++ DetStep.failure :: rest) = [] ∧
      processDetections (DetStep.lowConfidence :: rest) = processDetections rest ∧
      processDetections (DetStep.emptyCrop :: rest) = processDetections rest := by
  have herr : ∀ l r : List (DetStep A),
      processDetections (l ++ DetStep.failure :: r) = Except.error () := by
    intro l r
    induction l with
    | nil => rfl
    | cons s t ih =>
      cases s with
      | lowConfidence => simpa [processDetections] using ih
      | emptyCrop => simpa [processDetections] using ih
      | failure => rfl
      | success a => simp [processDetections, ih, Except.map]
  refine ⟨herr pre rest, ?_, rfl, rfl⟩
  unfold cycleResults
  rw [herr pre rest]

/-- C8 counterexample: a 100×100 image and the box `(x, y, w, h) =
(100, 0, 50, 50)`, which lies entirely outside the image (its left edge is
the image's right edge); the 15% margin pulls the crop window back inside,
so `align_face` returns a full `160 × 160` output instead of Empty. -/
theorem align_face_outside_cex :
    boxEntirelyOutside 100 100 100 0 50 50 ∧
      align_face 100 100 100 0 50 50 160 = some (160, 160) := by
  constructor
  · left; decide
  · rfl

/-- C8 (amended): a box whose mirrored origin (`abs` of the raw origin)
still lies at or beyond the image's right or bottom edge after subtracting
the 15% margin yields Empty (the margin expansion and the `abs`-mirroring
of negative origins can bring other outside boxes back into the image);
a box with positive width and height lying fully inside the image yields an
output of exactly `output_size × output_size`. -/
theorem align_face_spec (H W : Nat) (x y : Int) (w h : Nat) (s : Nat) :
    ((W ≤ x.natAbs - 15 * w / 100 ∨ H ≤ y.natAbs - 15 * h / 100) →
        align_face H W x y w h s = none) ∧
    (0 ≤ x → 0 ≤ y → 1 ≤ w → 1 ≤ h → x + w ≤ W → y + h ≤ H →
        align_face H W x y w h s = some (s, s)) := by
  constructor
  · intro hout
    unfold align_face
    apply if_pos
    apply Nat.mul_eq_zero.mpr
    rcases hout with hx | hy
    · right; omega
    · left; omega
  · intro hx hy hw hh hxw hyh
    have hxa : (x.natAbs : Int) = x := Int.natAbs_of_nonneg hx
    have hya : (y.natAbs : Int) = y := Int.natAbs_of_nonneg hy
    have hxW : x.natAbs + w ≤ W := by omega
    have hyH : y.natAbs + h ≤ H := by omega
    unfold align_face
    apply if_neg
    intro hzero
    rcases Nat.mul_eq_zero.mp hzero with hz | hz <;> omega

/-- Witness for C8 (amended): a box far beyond the right edge yields Empty,
and a strictly interior box yields the full 160×160 output. -/
theorem align_face_spec_witness :
    (100 ≤ (300 : Int).natAbs - 15 * 50 / 100 ∧
        align_face 100 100 300 0 50 50 160 = none) ∧
      align_face 100 100 10 10 50 50 160 = some (160, 160) :=
  ⟨⟨by decide, (align_face_spec 100 100 300 0 50 50 160).1 (Or.inl (by decide))⟩,
    (align_face_spec 100 100 10 10 50 50 160).2 (by decide) (by decide) (by decide)
      (by decide) (by decide) (by decide)⟩

/-- C2: on a non-empty store, `recognize_face` returns the minimum distance
over all records under the selected metric, with ties broken by the first
record in store order; the identity is the winning record's label iff the
minimum is strictly below the threshold, else Unknown (`none`); the minimum
distance is returned in both cases. -/
theorem recognize_face_min_spec {d : Nat} (db : List (String × (Fin d → ℝ)))
    (q : Fin d → ℝ) (useCosine : Bool) (threshold : ℝ) (hne : db ≠ []) :
    ∃ (i : Nat) (entry : String × (Fin d → ℝ)) (m : ℝ), db[i]? = some entry ∧
      (distancesTo db q useCosine)[i]? = some m ∧
      (∀ x ∈ distancesTo db q useCosine, m ≤ x) ∧
      (∀ j x, j < i → (distancesTo db q useCosine)[j]? = some x → m < x) ∧
      recognize_face db q useCosine threshold =
        some (if m < threshold then some entry.1 else none, m) := by
  cases h : argminAux (distancesTo db q useCosine) with
  | none =>
    exact absurd (List.map_eq_nil_iff.mp ((argminAux_eq_none_iff _).mp h)) hne
  | some im =>
    rcases im with ⟨i, m⟩
    obtain ⟨hget, hmin, hfirst⟩ := argminAux_spec _ i m h
    have hid : i < (distancesTo db q useCosine).length := by
      by_contra hge
      rw [List.getElem?_eq_none (by omega)] at hget
      exact Option.noConfusion hget
    have hlen : i < db.length := by
      simpa [distancesTo] using hid
    refine ⟨i, db.get ⟨i, hlen⟩, m, List.getElem?_eq_getElem hlen, hget, hmin, hfirst, ?_⟩
    unfold recognize_face
    rw [h]
    dsimp only
    split_ifs with hacc
    · rw [List.getElem?_eq_getElem hlen]
      rfl
    · rfl

/-- Witness for C2: a one-record store queried with its own vector under the
cosine metric and the configured threshold. -/
theorem recognize_face_min_spec_witness :
    ∃ (i : Nat) (entry : String × (Fin 1 → ℝ)) (m : ℝ),
      ([(("a" : String), fun _ : Fin 1 => (1 : ℝ))])[i]? = some entry ∧
      (distancesTo [(("a" : String), fun _ : Fin 1 => (1 : ℝ))]
        (fun _ => 1) true)[i]? = some m ∧
      (∀ x ∈ distancesTo [(("a" : String), fun _ : Fin 1 => (1 : ℝ))]
        (fun _ => 1) true, m ≤ x) ∧
      (∀ j x, j < i →
        (distancesTo [(("a" : String), fun _ : Fin 1 => (1 : ℝ))]
          (fun _ => 1) true)[j]? = some x → m < x) ∧
      recognize_face [(("a" : String), fun _ : Fin 1 => (1 : ℝ))]
          (fun _ => 1) true DISTANCE_THRESHOLD =
        some (if m < DISTANCE_THRESHOLD then some entry.1 else none, m) :=
  recognize_face_min_spec [(("a" : String), fun _ : Fin 1 => (1 : ℝ))]
    (fun _ => 1) true DISTANCE_THRESHOLD (by simp)

/-- C6: if the query equals some stored vector of a unit-normalized store,
`recognize_face` returns distance 0 and a non-Unknown identity, for any
threshold > 0 and under either metric. -/
theorem recognize_face_exact_match {d : Nat} (db : List (String × (Fin d → ℝ)))
    (q : Fin d → ℝ) (useCosine : Bool) (threshold : ℝ)
    (hunit : ∀ r ∈ db, vnorm r.2 = 1) (hq : ∃ r ∈ db, r.2 = q)
    (hthr : 0 < threshold) :
    ∃ name, recognize_face db q useCosine threshold = some (some name, 0) := by
  obtain ⟨r, hr, hrq⟩ := hq
  have hqunit : vnorm q = 1 := hrq ▸ hunit r hr
  have hzero_mem : (0 : ℝ) ∈ distancesTo db q useCosine := by
    apply List.mem_map.mpr
    refine ⟨r, hr, ?_⟩
    cases useCosine with
    | false => simp [hrq, euclidean_distance_self]
    | true => simp [hrq, cosine_distance_self q hqunit]
  have hnonneg : ∀ x ∈ distancesTo db q useCosine, 0 ≤ x := by
    intro x hx
    obtain ⟨r', hr', hfx⟩ := List.mem_map.mp hx
    cases useCosine with
    | false => simpa [← hfx] using euclidean_distance_nonneg q r'.2
    | true => simpa [← hfx] using cosine_distance_nonneg q r'.2 hqunit (hunit r' hr')
  cases h : argminAux (distancesTo db q useCosine) with
  | none =>
    rw [argminAux_eq_none_iff] at h
    rw [h] at hzero_mem
    exact absurd hzero_mem (List.not_mem_nil 0)
  | some im =>
    rcases im with ⟨i, m⟩
    obtain ⟨hget, hmin, _⟩ := argminAux_spec _ i m h
    have hm0 : m = 0 :=
      le_antisymm (hmin 0 hzero_mem) (hnonneg m (List.getElem?_mem hget))
    have hid : i < (distancesTo db q useCosine).length := by
      by_contra hge
      rw [List.getElem?_eq_none (by omega)] at hget
      exact Option.noConfusion hget
    have hlen : i < db.length := by
      simpa [distancesTo] using hid
    refine ⟨(db.get ⟨i, hlen⟩).1, ?_⟩
    unfold recognize_face
    rw [h, hm0]
    dsimp only
    rw [if_pos hthr, List.getElem?_eq_getElem hlen]
    rfl

/-- Witness for C6: the one-record unit store queried with its stored
vector is accepted with distance 0 at threshold 1. -/
theorem recognize_face_exact_match_witness :
    ∃ name, recognize_face [(("a" : String), fun _ : Fin 1 => (1 : ℝ))]
      (fun _ => 1) true 1 = some (some name, 0) :=
  recognize_face_exact_match [(("a" : String), fun _ : Fin 1 => (1 : ℝ))]
    (fun _ => 1) true 1
    (by
      intro r hr
      have hr' : r = (("a" : String), fun _ : Fin 1 => (1 : ℝ)) := by simpa using hr
      rw [hr']
      exact vnorm_const_one)
    ⟨(("a" : String), fun _ : Fin 1 => (1 : ℝ)), by simp, rfl⟩
    (by norm_num)

/-- C10: for unit-normalized vectors the squared euclidean distance equals
twice the cosine distance; hence, on a unit-normalized store, both metrics
select the same store index (same first-tie winner), and whenever both
metrics accept, the returned identity is the same. -/
theorem metric_toggle_same_winner {d : Nat} (db : List (String × (Fin d → ℝ)))
    (q : Fin d → ℝ) (hq : vnorm q = 1) (hdb : ∀ r ∈ db, vnorm r.2 = 1) :
    (∀ a b : Fin d → ℝ, vnorm a = 1 → vnorm b = 1 →
        euclidean_distance a b ^ 2 = 2 * cosine_distance a b) ∧
    (argminAux (distancesTo db q false)).map Prod.fst =
      (argminAux (distancesTo db q true)).map Prod.fst ∧
    (∀ te tc ne me nc mc,
        recognize_face db q false te = some (ne, me) →
        recognize_face db q true tc = some (nc, mc) →
        ne ≠ none → nc ≠ none → ne = nc) := by
  have hfalse : distancesTo db q false =
      db.map (fun r => euclidean_distance q r.2) := by
    unfold distancesTo; simp
  have htrue : distancesTo db q true =
      db.map (fun r => cosine_distance q r.2) := by
    unfold distancesTo; simp
  have hmap : distancesTo db q false =
      List.map (fun c => Real.sqrt (2 * c)) (distancesTo db q true) := by
    rw [hfalse, htrue, List.map_map]
    apply List.map_congr_left
    intro r hr
    exact euclidean_eq_sqrt_two_cosine q r.2 hq (hdb r hr)
  have hpos : ∀ x ∈ distancesTo db q true, (0 : ℝ) ≤ x := by
    rw [htrue]
    intro x hx
    obtain ⟨r, hr, hfx⟩ := List.mem_map.mp hx
    exact hfx ▸ cosine_distance_nonneg q r.2 hq (hdb r hr)
  have hmono : ∀ x ∈ distancesTo db q true, ∀ y ∈ distancesTo db q true,
      (Real.sqrt (2 * x) < Real.sqrt (2 * y) ↔ x < y) := by
    intro x hx y hy
    rw [Real.sqrt_lt_sqrt_iff (by linarith [hpos x hx])]
    constructor <;> intro <;> linarith
  have hidx : (argminAux (distancesTo db q false)).map Prod.fst =
      (argminAux (distancesTo db q true)).map Prod.fst := by
    rw [hmap, argminAux_map _ _ hmono]
    cases argminAux (distancesTo db q true) <;> rfl
  refine ⟨?_, hidx, ?_⟩
  · intro a b ha hb
    rw [euclidean_eq_sqrt_two_cosine a b ha hb,
      Real.sq_sqrt (by linarith [cosine_distance_nonneg a b ha hb])]
  · intro te tc ne me nc mc he hc hne hnc
    unfold recognize_face at he hc
    cases hae : argminAux (distancesTo db q false) with
    | none => rw [hae] at he; exact Option.noConfusion he
    | some pe =>
      rcases pe with ⟨ie, mine⟩
      rw [hae] at he
      cases hac : argminAux (distancesTo db q true) with
      | none => rw [hac] at hc; exact Option.noConfusion hc
      | some pc =>
        rcases pc with ⟨ic, minc⟩
        rw [hac] at hc
        have hie_ic : ie = ic := by
          rw [hae, hac] at hidx
          simpa using hidx
        dsimp only at he hc
        split_ifs at he hc with h1 h2
        · obtain ⟨hna, _⟩ : Option.map Prod.fst db[ie]? = ne ∧ mine = me := by
            simpa using he
          obtain ⟨hnb, _⟩ : Option.map Prod.fst db[ic]? = nc ∧ minc = mc := by
            simpa using hc
          rw [← hna, ← hnb, hie_ic]
        · obtain ⟨hnb, _⟩ : (none : Option String) = nc ∧ minc = mc := by
            simpa using hc
          exact absurd hnb.symm hnc
        · obtain ⟨hna, _⟩ : (none : Option String) = ne ∧ mine = me := by
            simpa using he
          exact absurd hna.symm hne
        · obtain ⟨hna, _⟩ : (none : Option String) = ne ∧ mine = me := by
            simpa using he
          exact absurd hna.symm hne

/-- Witness for C10 at the one-record unit store. -/
theorem metric_toggle_same_winner_witness :
    (∀ a b : Fin 1 → ℝ, vnorm a = 1 → vnorm b = 1 →
        euclidean_distance a b ^ 2 = 2 * cosine_distance a b) ∧
    (argminAux (distancesTo [(("a" : String), fun _ : Fin 1 => (1 : ℝ))]
        (fun _ => 1) false)).map Prod.fst =
      (argminAux (distancesTo [(("a" : String), fun _ : Fin 1 => (1 : ℝ))]
        (fun _ => 1) true)).map Prod.fst ∧
    (∀ te tc ne me nc mc,
        recognize_face [(("a" : String), fun _ : Fin 1 => (1 : ℝ))]
          (fun _ => 1) false te = some (ne, me) →
        recognize_face [(("a" : String), fun _ : Fin 1 => (1 : ℝ))]
          (fun _ => 1) true tc = some (nc, mc) →
        ne ≠ none → nc ≠ none → ne = nc) :=
  metric_toggle_same_winner [(("a" : String), fun _ : Fin 1 => (1 : ℝ))]
    (fun _ => 1) vnorm_const_one
    (by
      intro r hr
      have hr' : r = (("a" : String), fun _ : Fin 1 => (1 : ℝ)) := by simpa using hr
      rw [hr']
      exact vnorm_const_one)

/-- C1: from any tracker state, if the detection cycle at frame `T`
(`T = s0.frame_count + 1`, a multiple of `process_every_n_frames`) delivers
`k ≥ 1` results and no later cycle up to frame `T + 21` delivers a
non-empty result list, then the active face set equals exactly those
results on frames `T .. T + 20` and is empty on frame `T + 21`
(`PERSISTENCE_LIMIT = 20`). -/
theorem persistence_window {A : Type} (s0 : TrackerState A) (dets : Nat → List A)
    (hT : (s0.frame_count + 1) % process_every_n_frames = 0)
    (hk : 0 < (dets 0).length)
    (hlater : ∀ j, 1 ≤ j → j ≤ PERSISTENCE_LIMIT + 1 →
      (s0.frame_count + 1 + j) % process_every_n_frames = 0 → dets j = []) :
    (∀ j, j ≤ PERSISTENCE_LIMIT →
      (runFrames dets s0 (j + 1)).active_faces = dets 0) ∧
    (runFrames dets s0 (PERSISTENCE_LIMIT + 2)).active_faces = [] := by
  have hinv : ∀ j, j ≤ PERSISTENCE_LIMIT →
      (runFrames dets s0 (j + 1)).active_faces = dets 0 ∧
      (runFrames dets s0 (j + 1)).frames_without_detection = j ∧
      (runFrames dets s0 (j + 1)).frame_count = s0.frame_count + 1 + j := by
    intro j
    induction j with
    | zero =>
      intro _
      obtain ⟨h1, h2, h3⟩ := processFrame_update s0 (dets 0) hT hk
      simp only [runFrames]
      exact ⟨h1, h2, by omega⟩
    | succ n ih =>
      intro hn
      obtain ⟨ha, hf, hc⟩ := ih (by omega)
      have hnocond :
          ¬ (((runFrames dets s0 (n + 1)).frame_count + 1) %
              process_every_n_frames = 0 ∧ 0 < (dets (n + 1)).length) := by
        rintro ⟨hcyc, hlen⟩
        rw [hc] at hcyc
        have hde : dets (n + 1) = [] := by
          apply hlater (n + 1) (by omega) (by omega)
          rw [show s0.frame_count + 1 + (n + 1) =
            s0.frame_count + 1 + n + 1 from by omega]
          exact hcyc
        rw [hde] at hlen
        exact absurd hlen (by simp)
      obtain ⟨h1, h2, h3⟩ :=
        processFrame_no_update (runFrames dets s0 (n + 1)) (dets (n + 1))
          hnocond (by omega)
      refine ⟨?_, ?_, ?_⟩
      · rw [show n + 1 + 1 = (n + 1) + 1 from rfl, runFrames, h1, ha]
      · rw [runFrames, h2, hf]
      · rw [runFrames, h3, hc]; omega
  obtain ⟨h20a, h20f, h20c⟩ := hinv PERSISTENCE_LIMIT (le_refl _)
  have hnocond :
      ¬ (((runFrames dets s0 (PERSISTENCE_LIMIT + 1)).frame_count + 1) %
          process_every_n_frames = 0 ∧
        0 < (dets (PERSISTENCE_LIMIT + 1)).length) := by
    rintro ⟨hcyc, hlen⟩
    rw [h20c] at hcyc
    have hde : dets (PERSISTENCE_LIMIT + 1) = [] := by
      apply hlater (PERSISTENCE_LIMIT + 1) (by omega) (by omega)
      rw [show s0.frame_count + 1 + (PERSISTENCE_LIMIT + 1) =
        s0.frame_count + 1 + PERSISTENCE_LIMIT + 1 from by omega]
      exact hcyc
    rw [hde] at hlen
    exact absurd hlen (by simp)
  refine ⟨fun j hj => (hinv j hj).1, ?_⟩
  rw [show PERSISTENCE_LIMIT + 2 = (PERSISTENCE_LIMIT + 1) + 1 from rfl, runFrames]
  exact processFrame_stale _ _ hnocond (by omega)

/-- Witness for C1: from a state about to process frame 15, a cycle with
one result keeps it active through frame 35 and clears it on frame 36. -/
theorem persistence_window_witness :
    ((⟨[], 0, 14, 0⟩ : TrackerState Nat).frame_count + 1) %
        process_every_n_frames = 0 ∧
    0 < ((fun j => if j = 0 then [7] else []) 0 : List Nat).length ∧
    ((∀ j, j ≤ PERSISTENCE_LIMIT →
        (runFrames (fun j => if j = 0 then [7] else [])
          (⟨[], 0, 14, 0⟩ : TrackerState Nat) (j + 1)).active_faces =
          (fun j => if j = 0 then [7] else []) 0) ∧
      (runFrames (fun j => if j = 0 then [7] else [])
        (⟨[], 0, 14, 0⟩ : TrackerState Nat)
        (PERSISTENCE_LIMIT + 2)).active_faces = []) := by
  refine ⟨by decide, by simp, ?_⟩
  exact persistence_window (⟨[], 0, 14, 0⟩ : TrackerState Nat)
    (fun j => if j = 0 then [7] else []) (by decide) (by simp)
    (fun j h1 _ _ => by
      show (if j = 0 then [7] else []) = []
      rw [if_neg (by omega : ¬ j = 0)])

/-- C4: over any sequence of `F` frames from the initial state, the
expensive detect-normalize-embed-match branch executes exactly
`F / process_every_n_frames` times (`process_every_n_frames = 15`) — namely
on each frame whose 1-based counter is a multiple of 15 — independently of
the detector outcomes `dets`. -/
theorem scheduler_pipeline_count {A : Type} (dets : Nat → List A) (F : Nat) :
    (runFrames dets (initialState : TrackerState A) F).pipeline_runs =
        F / process_every_n_frames ∧
      ∀ j, (runFrames dets (initialState : TrackerState A) (j + 1)).pipeline_runs =
        (runFrames dets (initialState : TrackerState A) j).pipeline_runs +
          (if (j + 1) % process_every_n_frames = 0 then 1 else 0) := by
  have hstep : ∀ j,
      (runFrames dets (initialState : TrackerState A) (j + 1)).pipeline_runs =
        (runFrames dets (initialState : TrackerState A) j).pipeline_runs +
          (if (j + 1) % process_every_n_frames = 0 then 1 else 0) := by
    intro j
    have hfc : (runFrames dets (initialState : TrackerState A) j).frame_count = j := by
      simpa [initialState] using
        runFrames_frame_count dets (initialState : TrackerState A) j
    rw [runFrames, processFrame_pipeline_runs, hfc]
  refine ⟨?_, hstep⟩
  induction F with
  | zero => rfl
  | succ k ih =>
    rw [hstep k, ih, Nat.succ_div]
    have hiff : ((k + 1) % process_every_n_frames = 0) ↔
        process_every_n_frames ∣ (k + 1) := by
      unfold process_every_n_frames
      omega
    rw [if_congr hiff rfl rfl]

end FaceRec
